import Mathlib

/-!
Verification of the tmail client (src/index.js, src/index.ts).

Shallow embedding of the credential-lifecycle and request-orchestration
layer: cookie scraping (`fetchTokenFresh`), the two-tier token cache,
`ensureCredentials` with its single-flight in-flight promise, the
resilient `makeRequest` retry policy, the paced `RequestQueue`, and the
`waitForMessage` poller.  Network responses, clocks and interleavings are
parameters, so every function is executable and the semantics mirrors the
JavaScript line by line.
-/

set_option maxRecDepth 4000

namespace Tmail

/-- Structured client error, `TmailError` in src/index.js lines 25-32:
a human message, a machine-readable `code`, and an optional HTTP status. -/
structure TmailError where
  message : String
  code : String
  statusCode : Option Nat
deriving Repr, DecidableEq

/-- A token/cookie pair as produced by `fetchTokenFresh`. -/
structure Creds where
  token : String
  cookie : String
deriving Repr, DecidableEq

/-- `res.ok` of fetch: HTTP status in the 200-299 range. -/
def isOkStatus (s : Nat) : Bool := 200 ≤ s && s < 300

/-- JavaScript truthiness of a nullable string: `null` and `''` are falsy. -/
def truthy : Option String → Bool
  | none => false
  | some s => !(s == "")

/-! ## Cookie scraping (`fetchTokenFresh`, src/index.js lines 134-166)

JavaScript string primitives are modelled on `List Char` with structural
recursion so that every concrete run reduces inside the kernel. -/

/-- JS `String.prototype.split` with a one-character separator:
`''.split(sep)` is `['']`, separators at the ends produce empty pieces. -/
def splitChar (sep : Char) : List Char → List (List Char)
  | [] => [[]]
  | c :: rest =>
    match splitChar sep rest with
    | [] => [[]]
    | g :: gs => if c == sep then [] :: g :: gs else (c :: g) :: gs

/-- ASCII whitespace as removed by JS `String.prototype.trim`
(the cookie fragments handled here contain no exotic Unicode spaces). -/
def isSpaceChar (c : Char) : Bool :=
  c == ' ' || c == '\t' || c == '\n' || c == '\r'

def trimChars (l : List Char) : List Char :=
  ((l.dropWhile isSpaceChar).reverse.dropWhile isSpaceChar).reverse

def jsSplit (sep : Char) (s : String) : List String :=
  (splitChar sep s.toList).map fun l => ⟨l⟩

def jsTrim (s : String) : String := ⟨trimChars s.toList⟩

/-- JS `s.substring(0, n)`: the first `n` characters (all of `s` if shorter). -/
def jsTake (n : Nat) (s : String) : String := ⟨s.toList.take n⟩

/-- `cookies[name] = value` on a JS object: overwrite in place if the key
exists, otherwise append (insertion order, as `Object.entries` yields it
for the non-integer-like keys cookie names are). -/
def upsert : List (String × String) → String → String → List (String × String)
  | [], k, v => [(k, v)]
  | (k', v') :: rest, k, v =>
    if k' == k then (k, v) :: rest else (k', v') :: upsert rest k v

/-- `cookies[name]` read access. -/
def lookupCookie : List (String × String) → String → Option String
  | [], _ => none
  | (k', v') :: rest, k => if k' == k then some v' else lookupCookie rest k

/-- One iteration of the `setCookie.split(',').forEach` body
(src/index.js lines 154-158): take the text before the first `;`, trim it,
split on `=` into `[name, value]` (destructuring keeps the first two
fields), and store the pair when both are truthy. -/
def parseCookiePart (acc : List (String × String)) (part : String) :
    List (String × String) :=
  let nameVal := (jsSplit ';' part).headD ""
  let fields := jsSplit '=' (jsTrim nameVal)
  let name := fields.headD ""
  let value := (fields.drop 1).headD ""
  if name != "" && value != "" then upsert acc name value else acc

/-- The full `Set-Cookie` parse: split on `,`, fold the per-part step. -/
def parseCookies (setCookie : String) : List (String × String) :=
  (jsSplit ',' setCookie).foldl parseCookiePart []

/-- `Object.entries(cookies).map(([k,v]) => k + '=' + v).join('; ')`. -/
def joinCookies : List (String × String) → String
  | [] => ""
  | [(k, v)] => k ++ "=" ++ v
  | (k, v) :: rest => k ++ "=" ++ v ++ "; " ++ joinCookies rest

/-- `fetchTokenFresh` (src/index.js lines 134-166) as a pure transform of
the acquisition response, represented by its HTTP status and its optional
`Set-Cookie` header. -/
def fetchTokenFresh (status : Nat) (setCookie : Option String) :
    Except TmailError Creds :=
  if !(isOkStatus status) then
    .error ⟨"Token fetch failed", "TOKEN_FAILED", some status⟩
  else
    match setCookie with
    | none => .error ⟨"No set-cookie in token response", "TOKEN_FAILED", none⟩
    | some sc =>
      let cookies := parseCookies sc
      match lookupCookie cookies "XSRF-TOKEN" with
      | none => .error ⟨"No XSRF-TOKEN in response", "TOKEN_FAILED", none⟩
      | some xsrf => .ok ⟨jsTake 339 xsrf ++ "=", joinCookies cookies⟩

/-! ## Token cache expiry (src/index.js lines 100-111, 171) -/

/-- `TOKEN_EXPIRY_MS = 30 * 60 * 1000` (src/index.js line 10). -/
def TOKEN_EXPIRY_MS : Nat := 30 * 60 * 1000

/-- A cache record `{ token, cookie, timestamp }` as written by
`saveCachedToken` / stored in `memoryCache`. -/
structure CacheEntry where
  token : String
  cookie : String
  timestamp : Nat
deriving Repr, DecidableEq

/-- The expiry check `Date.now() < entry.timestamp + TOKEN_EXPIRY_MS`,
shared verbatim by the durable tier (line 106) and the in-process tier
(line 171). -/
def cacheEntryValid (entry : CacheEntry) (now : Nat) : Bool :=
  now < entry.timestamp + TOKEN_EXPIRY_MS

/-- `loadCachedToken` (src/index.js lines 100-111) over the durable tier
state: a missing, unparseable or expired file is a miss (`none`). -/
def loadCachedToken (fileCache : Option CacheEntry) (now : Nat) :
    Option Creds :=
  match fileCache with
  | none => none
  | some d => if cacheEntryValid d now then some ⟨d.token, d.cookie⟩ else none

/-! ## Credential store state and `ensureCredentials` (src/index.js 168-202) -/

/-- State of one client's credential closure: the `token` and `cookie`
variables, the in-process `memoryCache`, and the durable cache file
contents (the `tokenCachePath` tier). -/
structure CredState where
  token : Option String
  cookie : Option String
  memoryCache : Option CacheEntry
  fileCache : Option CacheEntry
deriving Repr, DecidableEq

/-- Outcome the network delivers for one `fetchTokenFresh` call: the
parsed credentials, or the `TmailError` the acquisition rejected with. -/
inductive FetchResult where
  | success (c : Creds)
  | failure (e : TmailError)
deriving Repr, DecidableEq

/-- The in-process tier test of line 171:
`memoryCache && Date.now() < memoryCache.timestamp + TOKEN_EXPIRY_MS`. -/
def memoryCacheHit (st : CredState) (now : Nat) : Option CacheEntry :=
  match st.memoryCache with
  | some m => if cacheEntryValid m now then some m else none
  | none => none

/-- What the synchronous head of `ensureCredentials` (lines 169-183, the
code before the first `await`) decides from the closure state and clock:
return at once on truthy `token && cookie`, adopt an unexpired in-process
entry, adopt an unexpired durable entry, or require an acquisition. -/
inductive SyncDecision where
  | haveCreds
  | useMem (m : CacheEntry)
  | useFile (c : Creds)
  | needFetch
deriving Repr, DecidableEq

def ensureSyncHead (st : CredState) (now : Nat) : SyncDecision :=
  if truthy st.token && truthy st.cookie then .haveCreds
  else
    match memoryCacheHit st now with
    | some m => .useMem m
    | none =>
      match loadCachedToken st.fileCache now with
      | some c => .useFile c
      | none => .needFetch

/-- Closure-state effect of adopting creds that came back from an
acquisition (lines 185-188 for a joining caller, 194-197 for the caller
that started it): set `token`/`cookie`, repopulate `memoryCache` with the
current instant, and persist via `saveCachedToken`. -/
def installFetched (st : CredState) (c : Creds) (now : Nat) : CredState :=
  { st with
    token := some c.token
    cookie := some c.cookie
    memoryCache := some ⟨c.token, c.cookie, now⟩
    fileCache := some ⟨c.token, c.cookie, now⟩ }

/-- `ensureCredentials` as observed by a single sequential call:
`tokenFetchPromise` is `null` at entry so the join branch (line 183)
cannot fire; `fetch` is the outcome the network would deliver for the one
acquisition this call may start.  Returns the updated closure state (or
the propagated acquisition failure) with the count of `fetchTokenFresh`
calls made. -/
def ensureCredentialsSeq (st : CredState) (now : Nat) (fetch : FetchResult) :
    Except TmailError CredState × Nat :=
  match ensureSyncHead st now with
  | .haveCreds => (.ok st, 0)
  | .useMem m =>
    (.ok { st with token := some m.token, cookie := some m.cookie }, 0)
  | .useFile c =>
    (.ok { st with
           token := some c.token,
           cookie := some c.cookie,
           memoryCache := some ⟨c.token, c.cookie, now⟩ }, 0)
  | .needFetch =>
    match fetch with
    | .success c => (.ok (installFetched st c now), 1)
    | .failure e => (.error e, 1)

/-! ## Resilient request executor (`makeRequest`, src/index.js 220-247) -/

/-- What one `fetch` attempt yields: an HTTP response (by status), or a
transport-level failure (timeout, connection error) that rejects. -/
inductive Outcome where
  | http (status : Nat)
  | transport (msg : String)
deriving Repr, DecidableEq

def Outcome.isTransport : Outcome → Bool
  | .http _ => false
  | .transport _ => true

/-- The authentication-relevant fields of `opts.headers`; `none` means
the field is absent from the header object. -/
structure Headers where
  xsrfToken : Option String
  cookie : Option String
deriving Repr, DecidableEq

/-- The header rewrite of the 403 retry (lines 226-228): each field is
replaced by the refreshed value only when currently present and truthy. -/
def rewriteHeaders (h : Headers) (fresh : Creds) : Headers :=
  { xsrfToken := if truthy h.xsrfToken then some fresh.token else h.xsrfToken,
    cookie := if truthy h.cookie then some fresh.cookie else h.cookie }

/-- One attempt as it went out: the headers used and what came back. -/
structure AttemptRecord where
  hdrs : Headers
  outcome : Outcome
deriving Repr, DecidableEq

/-- A complete run of `makeRequest`: the settled result (`ok` carries the
successful status), every attempt in order, and how many
`refreshCredentials` calls were made. -/
structure MRRun where
  result : Except TmailError Nat
  attempts : List AttemptRecord
  refreshCount : Nat
deriving Repr

/-- `makeRequest` (src/index.js lines 220-247).  `oracle` maps the global
attempt index to that attempt's outcome; `fresh` is what the (successful)
`refreshCredentials` installs.  Checked in source order: HTTP 403 with
`retryCount === 0` refreshes, rewrites headers and recurses; 419 throws
`INVALID_CREDENTIALS`; other non-2xx throws `HTTP_ERROR` (the catch
rethrows any `TmailError` unchanged, so no retry); a transport failure
recurses while `retryCount < maxRetries` and otherwise throws
`REQUEST_FAILED`. -/
def makeRequestAux (maxRetries : Nat) (oracle : Nat → Outcome) (fresh : Creds)
    (idx : Nat) (hdrs : Headers) (retryCount : Nat) : MRRun :=
  match oracle idx with
  | .http s =>
    if h403 : s == 403 && retryCount == 0 then
      let rest := makeRequestAux maxRetries oracle fresh (idx + 1)
        (rewriteHeaders hdrs fresh) (retryCount + 1)
      ⟨rest.result, ⟨hdrs, .http s⟩ :: rest.attempts, rest.refreshCount + 1⟩
    else if s == 419 then
      ⟨.error ⟨"Invalid or expired XSRF/cookie", "INVALID_CREDENTIALS", some 419⟩,
        [⟨hdrs, .http s⟩], 0⟩
    else if !(isOkStatus s) then
      ⟨.error ⟨"HTTP error", "HTTP_ERROR", some s⟩, [⟨hdrs, .http s⟩], 0⟩
    else
      ⟨.ok s, [⟨hdrs, .http s⟩], 0⟩
  | .transport m =>
    if hTr : retryCount < maxRetries then
      let rest := makeRequestAux maxRetries oracle fresh (idx + 1) hdrs
        (retryCount + 1)
      ⟨rest.result, ⟨hdrs, .transport m⟩ :: rest.attempts, rest.refreshCount⟩
    else
      ⟨.error ⟨"Request failed: " ++ m, "REQUEST_FAILED", none⟩,
        [⟨hdrs, .transport m⟩], 0⟩
termination_by maxRetries + 2 - retryCount
decreasing_by
  · simp only [Bool.and_eq_true, beq_iff_eq] at h403
    omega
  · omega

/-- A logical request: `makeRequest(url, opts)` starts at attempt index 0
with `retryCount = 0`. -/
def makeRequest (maxRetries : Nat) (oracle : Nat → Outcome) (fresh : Creds)
    (hdrs : Headers) : MRRun :=
  makeRequestAux maxRetries oracle fresh 0 hdrs 0

/-- Number of transient retries a run performed: transport failures that
were followed by another attempt (every attempt except the last that
failed at transport level was retried). -/
def transientRetries (r : MRRun) : Nat :=
  r.attempts.dropLast.countP fun a => a.outcome.isTransport

/-! One-step unfolding lemmas for `makeRequestAux` (well-founded
definitions do not reduce definitionally, so each source branch gets an
explicit rewrite). -/

theorem mra_step_403 (mR : Nat) (o : Nat → Outcome) (f : Creds) (idx : Nat)
    (h : Headers) (hs : o idx = .http 403) :
    makeRequestAux mR o f idx h 0 =
      ⟨(makeRequestAux mR o f (idx + 1) (rewriteHeaders h f) 1).result,
       ⟨h, .http 403⟩ ::
         (makeRequestAux mR o f (idx + 1) (rewriteHeaders h f) 1).attempts,
       (makeRequestAux mR o f (idx + 1) (rewriteHeaders h f) 1).refreshCount + 1⟩ := by
  conv_lhs => rw [makeRequestAux]
  simp [hs]

theorem mra_step_419 (mR : Nat) (o : Nat → Outcome) (f : Creds) (idx : Nat)
    (h : Headers) (rc : Nat) (hs : o idx = .http 419) :
    makeRequestAux mR o f idx h rc =
      ⟨.error ⟨"Invalid or expired XSRF/cookie", "INVALID_CREDENTIALS", some 419⟩,
       [⟨h, .http 419⟩], 0⟩ := by
  conv_lhs => rw [makeRequestAux]
  simp [hs]

theorem mra_step_httpFail (mR : Nat) (o : Nat → Outcome) (f : Creds) (idx : Nat)
    (h : Headers) (rc s : Nat) (hs : o idx = .http s)
    (hno : ¬(s = 403 ∧ rc = 0)) (h419 : s ≠ 419) (hok : isOkStatus s = false) :
    makeRequestAux mR o f idx h rc =
      ⟨.error ⟨"HTTP error", "HTTP_ERROR", some s⟩, [⟨h, .http s⟩], 0⟩ := by
  conv_lhs => rw [makeRequestAux]
  simp only [hs]
  rw [dif_neg (by simpa using hno), if_neg (by simpa using h419),
    if_pos (by simp [hok])]

theorem mra_step_httpOk (mR : Nat) (o : Nat → Outcome) (f : Creds) (idx : Nat)
    (h : Headers) (rc s : Nat) (hs : o idx = .http s)
    (hno : ¬(s = 403 ∧ rc = 0)) (h419 : s ≠ 419) (hok : isOkStatus s = true) :
    makeRequestAux mR o f idx h rc = ⟨.ok s, [⟨h, .http s⟩], 0⟩ := by
  conv_lhs => rw [makeRequestAux]
  simp only [hs]
  rw [dif_neg (by simpa using hno), if_neg (by simpa using h419),
    if_neg (by simp [hok])]

theorem mra_step_transport_retry (mR : Nat) (o : Nat → Outcome) (f : Creds)
    (idx : Nat) (h : Headers) (rc : Nat) (m : String)
    (hs : o idx = .transport m) (hlt : rc < mR) :
    makeRequestAux mR o f idx h rc =
      ⟨(makeRequestAux mR o f (idx + 1) h (rc + 1)).result,
       ⟨h, .transport m⟩ :: (makeRequestAux mR o f (idx + 1) h (rc + 1)).attempts,
       (makeRequestAux mR o f (idx + 1) h (rc + 1)).refreshCount⟩ := by
  conv_lhs => rw [makeRequestAux]
  simp [hs, hlt]

theorem mra_step_transport_stop (mR : Nat) (o : Nat → Outcome) (f : Creds)
    (idx : Nat) (h : Headers) (rc : Nat) (m : String)
    (hs : o idx = .transport m) (hge : ¬ rc < mR) :
    makeRequestAux mR o f idx h rc =
      ⟨.error ⟨"Request failed: " ++ m, "REQUEST_FAILED", none⟩,
       [⟨h, .transport m⟩], 0⟩ := by
  conv_lhs => rw [makeRequestAux]
  simp [hs, hge]

/-- Every run records at least the attempt it starts with. -/
theorem makeRequestAux_attempts_ne_nil (mR : Nat) (o : Nat → Outcome)
    (f : Creds) (idx : Nat) (h : Headers) (rc : Nat) :
    (makeRequestAux mR o f idx h rc).attempts ≠ [] := by
  induction idx, h, rc using makeRequestAux.induct mR o f with
  | case1 idx h rc s hs h403 ih =>
    simp only [Bool.and_eq_true, beq_iff_eq] at h403
    obtain ⟨rfl, rfl⟩ := h403
    rw [mra_step_403 mR o f idx h hs]
    simp
  | case2 idx h rc s hs h403 h419 =>
    simp only [Bool.and_eq_true, beq_iff_eq] at h403 h419
    subst h419
    rw [mra_step_419 mR o f idx h rc hs]
    simp
  | case3 idx h rc s hs h403 h419 hok =>
    simp only [Bool.and_eq_true, beq_iff_eq] at h403 h419
    simp only [Bool.not_eq_true'] at hok
    rw [mra_step_httpFail mR o f idx h rc s hs h403 h419 hok]
    simp
  | case4 idx h rc s hs h403 h419 hok =>
    simp only [Bool.and_eq_true, beq_iff_eq] at h403 h419
    simp only [Bool.not_eq_true', Bool.not_eq_false] at hok
    rw [mra_step_httpOk mR o f idx h rc s hs h403 h419 hok]
    simp
  | case5 idx h rc m hs hlt ih =>
    rw [mra_step_transport_retry mR o f idx h rc m hs hlt]
    simp
  | case6 idx h rc m hs hlt =>
    rw [mra_step_transport_stop mR o f idx h rc m hs hlt]
    simp

/-- The first recorded attempt of a (sub-)run: the headers it was entered
with and the oracle's outcome at its index. -/
theorem makeRequestAux_attempts_head (mR : Nat) (o : Nat → Outcome)
    (f : Creds) (idx : Nat) (h : Headers) (rc : Nat) :
    (makeRequestAux mR o f idx h rc).attempts.head? = some ⟨h, o idx⟩ := by
  induction idx, h, rc using makeRequestAux.induct mR o f with
  | case1 idx h rc s hs h403 ih =>
    simp only [Bool.and_eq_true, beq_iff_eq] at h403
    obtain ⟨rfl, rfl⟩ := h403
    rw [mra_step_403 mR o f idx h hs]
    simp [hs]
  | case2 idx h rc s hs h403 h419 =>
    simp only [Bool.and_eq_true, beq_iff_eq] at h403 h419
    subst h419
    rw [mra_step_419 mR o f idx h rc hs]
    simp [hs]
  | case3 idx h rc s hs h403 h419 hok =>
    simp only [Bool.and_eq_true, beq_iff_eq] at h403 h419
    simp only [Bool.not_eq_true'] at hok
    rw [mra_step_httpFail mR o f idx h rc s hs h403 h419 hok]
    simp [hs]
  | case4 idx h rc s hs h403 h419 hok =>
    simp only [Bool.and_eq_true, beq_iff_eq] at h403 h419
    simp only [Bool.not_eq_true', Bool.not_eq_false] at hok
    rw [mra_step_httpOk mR o f idx h rc s hs h403 h419 hok]
    simp [hs]
  | case5 idx h rc m hs hlt ih =>
    rw [mra_step_transport_retry mR o f idx h rc m hs hlt]
    simp [hs]
  | case6 idx h rc m hs hlt =>
    rw [mra_step_transport_stop mR o f idx h rc m hs hlt]
    simp [hs]

/-- A sub-run entered with a non-zero retry counter never refreshes, and
any run refreshes at most once: the 403 branch requires
`retryCount === 0` and recurses with the counter at 1. -/
theorem makeRequestAux_refreshCount_le (mR : Nat) (o : Nat → Outcome)
    (f : Creds) (idx : Nat) (h : Headers) (rc : Nat) :
    (makeRequestAux mR o f idx h rc).refreshCount ≤
      (if rc = 0 then 1 else 0) := by
  induction idx, h, rc using makeRequestAux.induct mR o f with
  | case1 idx h rc s hs h403 ih =>
    simp only [Bool.and_eq_true, beq_iff_eq] at h403
    obtain ⟨rfl, rfl⟩ := h403
    rw [mra_step_403 mR o f idx h hs]
    simp only [Nat.zero_add] at ih
    simp at ih ⊢
    omega
  | case2 idx h rc s hs h403 h419 =>
    simp only [Bool.and_eq_true, beq_iff_eq] at h403 h419
    subst h419
    rw [mra_step_419 mR o f idx h rc hs]
    split <;> simp
  | case3 idx h rc s hs h403 h419 hok =>
    simp only [Bool.and_eq_true, beq_iff_eq] at h403 h419
    simp only [Bool.not_eq_true'] at hok
    rw [mra_step_httpFail mR o f idx h rc s hs h403 h419 hok]
    split <;> simp
  | case4 idx h rc s hs h403 h419 hok =>
    simp only [Bool.and_eq_true, beq_iff_eq] at h403 h419
    simp only [Bool.not_eq_true', Bool.not_eq_false] at hok
    rw [mra_step_httpOk mR o f idx h rc s hs h403 h419 hok]
    split <;> simp
  | case5 idx h rc m hs hlt ih =>
    rw [mra_step_transport_retry mR o f idx h rc m hs hlt]
    simp only at ih ⊢
    split at ih <;> split <;> omega
  | case6 idx h rc m hs hlt =>
    rw [mra_step_transport_stop mR o f idx h rc m hs hlt]
    split <;> simp

/-- The run refreshes only if its very first attempt came back 403 with
the counter at 0. -/
theorem makeRequestAux_refresh_first403 (mR : Nat) (o : Nat → Outcome)
    (f : Creds) (idx : Nat) (h : Headers) (rc : Nat)
    (hpos : 0 < (makeRequestAux mR o f idx h rc).refreshCount) :
    o idx = .http 403 ∧ rc = 0 := by
  rcases hs : o idx with s | m
  · by_cases h403 : s = 403 ∧ rc = 0
    · obtain ⟨rfl, rfl⟩ := h403
      exact ⟨rfl, rfl⟩
    · exfalso
      by_cases h419 : s = 419
      · subst h419
        rw [mra_step_419 mR o f idx h rc hs] at hpos
        simp at hpos
      · rcases hok : isOkStatus s with _ | _
        · rw [mra_step_httpFail mR o f idx h rc s hs h403 h419 hok] at hpos
          simp at hpos
        · rw [mra_step_httpOk mR o f idx h rc s hs h403 h419 hok] at hpos
          simp at hpos
  · exfalso
    by_cases hlt : rc < mR
    · have aux : (makeRequestAux mR o f (idx + 1) h (rc + 1)).refreshCount = 0 := by
        have := makeRequestAux_refreshCount_le mR o f (idx + 1) h (rc + 1)
        rw [if_neg (by omega)] at this
        omega
      rw [mra_step_transport_retry mR o f idx h rc m hs hlt] at hpos
      simp [aux] at hpos
    · rw [mra_step_transport_stop mR o f idx h rc m hs hlt] at hpos
      simp at hpos

/-- The single shared counter bounds the two retry kinds together: a
sub-run entered at counter `rc` performs at most
`max (maxRetries - rc) (1 if rc = 0)` retries of either kind in total. -/
theorem makeRequestAux_shared_budget (mR : Nat) (o : Nat → Outcome)
    (f : Creds) (idx : Nat) (h : Headers) (rc : Nat) :
    transientRetries (makeRequestAux mR o f idx h rc) +
      (makeRequestAux mR o f idx h rc).refreshCount ≤
      max (mR - rc) (if rc = 0 then 1 else 0) := by
  induction idx, h, rc using makeRequestAux.induct mR o f with
  | case1 idx h rc s hs h403 ih =>
    simp only [Bool.and_eq_true, beq_iff_eq] at h403
    obtain ⟨rfl, rfl⟩ := h403
    rw [mra_step_403 mR o f idx h hs]
    have hne := makeRequestAux_attempts_ne_nil mR o f (idx + 1)
      (rewriteHeaders h f) 1
    simp only [Nat.zero_add] at ih
    simp only [transientRetries, List.dropLast_cons_of_ne_nil hne,
      List.countP_cons, Outcome.isTransport] at ih ⊢
    simp at ih ⊢
    omega
  | case2 idx h rc s hs h403 h419 =>
    simp only [Bool.and_eq_true, beq_iff_eq] at h403 h419
    subst h419
    rw [mra_step_419 mR o f idx h rc hs]
    simp [transientRetries]
  | case3 idx h rc s hs h403 h419 hok =>
    simp only [Bool.and_eq_true, beq_iff_eq] at h403 h419
    simp only [Bool.not_eq_true'] at hok
    rw [mra_step_httpFail mR o f idx h rc s hs h403 h419 hok]
    simp [transientRetries]
  | case4 idx h rc s hs h403 h419 hok =>
    simp only [Bool.and_eq_true, beq_iff_eq] at h403 h419
    simp only [Bool.not_eq_true', Bool.not_eq_false] at hok
    rw [mra_step_httpOk mR o f idx h rc s hs h403 h419 hok]
    simp [transientRetries]
  | case5 idx h rc m hs hlt ih =>
    rw [mra_step_transport_retry mR o f idx h rc m hs hlt]
    have hne := makeRequestAux_attempts_ne_nil mR o f (idx + 1) h (rc + 1)
    simp only [transientRetries, List.dropLast_cons_of_ne_nil hne,
      List.countP_cons, Outcome.isTransport] at ih ⊢
    simp at ih ⊢
    omega
  | case6 idx h rc m hs hlt =>
    rw [mra_step_transport_stop mR o f idx h rc m hs hlt]
    simp [transientRetries]

/-! ## Claim theorems: request executor and credential store -/

/-- The concrete response sequence refuting claim C1: first attempt 403,
every later attempt a transport failure. -/
def oracle403ThenTransport : Nat → Outcome :=
  fun n => if n = 0 then .http 403 else .transport "ECONNRESET"

/-- Claim C1 is false on the code: with the default `maxRetries = 2`, a
request whose first attempt returns 403 (consuming the credential-refresh
retry) and then hits transport failures is abandoned with
`REQUEST_FAILED` after a single transient retry, not the configured two:
the 403 retry and the transient retries draw on one shared counter. -/
theorem C1_counterexample :
    (makeRequest 2 oracle403ThenTransport ⟨"freshTok", "freshCk"⟩
        ⟨some "tok", some "ck"⟩).result =
      .error ⟨"Request failed: ECONNRESET", "REQUEST_FAILED", none⟩ ∧
    (makeRequest 2 oracle403ThenTransport ⟨"freshTok", "freshCk"⟩
        ⟨some "tok", some "ck"⟩).refreshCount = 1 ∧
    transientRetries (makeRequest 2 oracle403ThenTransport
        ⟨"freshTok", "freshCk"⟩ ⟨some "tok", some "ck"⟩) = 1 ∧
    transientRetries (makeRequest 2 oracle403ThenTransport
        ⟨"freshTok", "freshCk"⟩ ⟨some "tok", some "ck"⟩) ≠ 2 := by
  refine ⟨?_, ?_, ?_, ?_⟩ <;>
    simp [makeRequest, makeRequestAux, oracle403ThenTransport, rewriteHeaders,
      truthy, isOkStatus, transientRetries, Outcome.isTransport]

/-- Claim C1 (amended): at most one credential-refresh retry occurs per
logical request, and only when the attempt with retry counter 0 returns
HTTP 403; but the transient budget is not independent of it — both
retry kinds draw on one shared counter, so transient retries plus
credential refreshes together never exceed `max maxRetries 1` (after a
consumed credential-refresh retry only `maxRetries - 1` transient
retries remain). -/
theorem C1_amended (mR : Nat) (o : Nat → Outcome) (f : Creds) (h : Headers) :
    (makeRequest mR o f h).refreshCount ≤ 1 ∧
    (0 < (makeRequest mR o f h).refreshCount → o 0 = .http 403) ∧
    transientRetries (makeRequest mR o f h) +
      (makeRequest mR o f h).refreshCount ≤ max mR 1 := by
  refine ⟨?_, ?_, ?_⟩
  · have := makeRequestAux_refreshCount_le mR o f 0 h 0
    simpa using this
  · intro hpos
    exact (makeRequestAux_refresh_first403 mR o f 0 h 0 hpos).1
  · have := makeRequestAux_shared_budget mR o f 0 h 0
    simpa using this

/-- Witness for C1 (amended) at the counterexample input. -/
theorem C1_witness :
    (makeRequest 2 oracle403ThenTransport ⟨"freshTok", "freshCk"⟩
        ⟨some "tok", some "ck"⟩).refreshCount ≤ 1 ∧
    (0 < (makeRequest 2 oracle403ThenTransport ⟨"freshTok", "freshCk"⟩
        ⟨some "tok", some "ck"⟩).refreshCount →
      oracle403ThenTransport 0 = .http 403) ∧
    transientRetries (makeRequest 2 oracle403ThenTransport
        ⟨"freshTok", "freshCk"⟩ ⟨some "tok", some "ck"⟩) +
      (makeRequest 2 oracle403ThenTransport ⟨"freshTok", "freshCk"⟩
        ⟨some "tok", some "ck"⟩).refreshCount ≤ max 2 1 :=
  C1_amended 2 oracle403ThenTransport ⟨"freshTok", "freshCk"⟩
    ⟨some "tok", some "ck"⟩

/-- Claim C2 is false in its final clause: when the retried attempt also
returns 403, the run does NOT fall back to the transient retry policy
even though transient attempts remain (counter 1 < maxRetries 2) — the
second 403 raises `HTTP_ERROR`, a `TmailError` the catch rethrows
unchanged, so the request fails immediately after 2 attempts. -/
theorem C2_counterexample :
    (makeRequest 2 (fun _ => .http 403) ⟨"freshTok", "freshCk"⟩
        ⟨some "tok", some "ck"⟩).result =
      .error ⟨"HTTP error", "HTTP_ERROR", some 403⟩ ∧
    (makeRequest 2 (fun _ => .http 403) ⟨"freshTok", "freshCk"⟩
        ⟨some "tok", some "ck"⟩).attempts.length = 2 ∧
    (makeRequest 2 (fun _ => .http 403) ⟨"freshTok", "freshCk"⟩
        ⟨some "tok", some "ck"⟩).refreshCount = 1 ∧
    transientRetries (makeRequest 2 (fun _ => .http 403)
        ⟨"freshTok", "freshCk"⟩ ⟨some "tok", some "ck"⟩) = 0 ∧
    (1 : Nat) < 2 := by
  refine ⟨?_, ?_, ?_, ?_, ?_⟩ <;>
    simp [makeRequest, makeRequestAux, rewriteHeaders, truthy, isOkStatus,
      transientRetries, Outcome.isTransport]

/-- Claim C2 (amended): a 403 on the first attempt refreshes credentials
once and retries exactly once with the counter incremented and the
`x-xsrf-token`/`cookie` header fields rewritten to the refreshed values
(when present); if the retried attempt also returns 403 the request
fails immediately with `HTTP_ERROR` — no second refresh and no
transient retry, since transient retries cover only transport failures. -/
theorem C2_amended (mR : Nat) (o : Nat → Outcome) (f : Creds) (h : Headers)
    (h403 : o 0 = .http 403) :
    (makeRequest mR o f h).attempts.head? = some ⟨h, .http 403⟩ ∧
    (makeRequest mR o f h).attempts.tail.head? =
      some ⟨rewriteHeaders h f, o 1⟩ ∧
    (truthy h.xsrfToken = true →
      (rewriteHeaders h f).xsrfToken = some f.token) ∧
    (truthy h.cookie = true → (rewriteHeaders h f).cookie = some f.cookie) ∧
    (o 1 = .http 403 →
      (makeRequest mR o f h).refreshCount = 1 ∧
      (makeRequest mR o f h).attempts.length = 2 ∧
      (makeRequest mR o f h).result =
        .error ⟨"HTTP error", "HTTP_ERROR", some 403⟩) := by
  unfold makeRequest
  rw [mra_step_403 mR o f 0 h h403]
  refine ⟨by simp, ?_, ?_, ?_, ?_⟩
  · simpa using makeRequestAux_attempts_head mR o f 1 (rewriteHeaders h f) 1
  · intro ht
    simp [rewriteHeaders, ht]
  · intro hc
    simp [rewriteHeaders, hc]
  · intro h403'
    rw [mra_step_httpFail mR o f 1 (rewriteHeaders h f) 1 403 h403'
      (by omega) (by omega) (by decide)]
    simp

/-- Witness for C2 (amended): both 403 attempts on concrete inputs. -/
theorem C2_witness :
    ((fun _ => Outcome.http 403) 0 = Outcome.http 403) ∧
    ((makeRequest 2 (fun _ => .http 403) ⟨"T2", "C2"⟩
        ⟨some "T1", some "C1"⟩).attempts.head? =
      some ⟨⟨some "T1", some "C1"⟩, .http 403⟩ ∧
    (makeRequest 2 (fun _ => .http 403) ⟨"T2", "C2"⟩
        ⟨some "T1", some "C1"⟩).attempts.tail.head? =
      some ⟨rewriteHeaders ⟨some "T1", some "C1"⟩ ⟨"T2", "C2"⟩,
        (fun _ => Outcome.http 403) 1⟩ ∧
    (truthy (some "T1") = true →
      (rewriteHeaders ⟨some "T1", some "C1"⟩ ⟨"T2", "C2"⟩).xsrfToken =
        some "T2") ∧
    (truthy (some "C1") = true →
      (rewriteHeaders ⟨some "T1", some "C1"⟩ ⟨"T2", "C2"⟩).cookie =
        some "C2") ∧
    ((fun _ => Outcome.http 403) 1 = .http 403 →
      (makeRequest 2 (fun _ => .http 403) ⟨"T2", "C2"⟩
          ⟨some "T1", some "C1"⟩).refreshCount = 1 ∧
      (makeRequest 2 (fun _ => .http 403) ⟨"T2", "C2"⟩
          ⟨some "T1", some "C1"⟩).attempts.length = 2 ∧
      (makeRequest 2 (fun _ => .http 403) ⟨"T2", "C2"⟩
          ⟨some "T1", some "C1"⟩).result =
        .error ⟨"HTTP error", "HTTP_ERROR", some 403⟩)) :=
  ⟨rfl, C2_amended 2 (fun _ => .http 403) ⟨"T2", "C2"⟩
    ⟨some "T1", some "C1"⟩ rfl⟩

/-- Claim C4: an attempt that returns HTTP 419, at any retry counter,
makes the run fail immediately with `INVALID_CREDENTIALS` (status 419):
that attempt is the only one recorded at this level and no refresh and
no retry of any kind follows. -/
theorem C4_419_fails_immediately (mR : Nat) (o : Nat → Outcome) (f : Creds)
    (idx : Nat) (h : Headers) (rc : Nat) (hs : o idx = .http 419) :
    makeRequestAux mR o f idx h rc =
      ⟨.error ⟨"Invalid or expired XSRF/cookie", "INVALID_CREDENTIALS",
          some 419⟩,
       [⟨h, .http 419⟩], 0⟩ :=
  mra_step_419 mR o f idx h rc hs

/-- Witness for C4 at a concrete later attempt (counter 1). -/
theorem C4_witness :
    ((fun _ => Outcome.http 419) 3 = Outcome.http 419) ∧
    makeRequestAux 2 (fun _ => .http 419) ⟨"T", "C"⟩ 3
        ⟨some "tok", some "ck"⟩ 1 =
      ⟨.error ⟨"Invalid or expired XSRF/cookie", "INVALID_CREDENTIALS",
          some 419⟩,
       [⟨⟨some "tok", some "ck"⟩, .http 419⟩], 0⟩ :=
  ⟨rfl, C4_419_fails_immediately 2 (fun _ => .http 419) ⟨"T", "C"⟩ 3
    ⟨some "tok", some "ck"⟩ 1 rfl⟩

/-- Claim C9: whenever the in-memory `token` and `cookie` are both set
(truthy), `ensureCredentials` returns the state unchanged for every
clock value and every would-be acquisition outcome — neither cache tier
is consulted, no expiry check applies to in-memory credentials, and no
network call is made. -/
theorem C9_inmemory_short_circuit (st : CredState) (now : Nat)
    (fetch : FetchResult) (ht : truthy st.token = true)
    (hc : truthy st.cookie = true) :
    ensureCredentialsSeq st now fetch = (.ok st, 0) := by
  simp [ensureCredentialsSeq, ensureSyncHead, ht, hc]

/-- Witness for C9: expired durable entry, clock far past every window,
failing network — the pre-set pair is still used untouched. -/
theorem C9_witness :
    truthy (some "tok") = true ∧ truthy (some "ck") = true ∧
    ensureCredentialsSeq
        ⟨some "tok", some "ck", none, some ⟨"x", "y", 0⟩⟩ 99999999999
        (.failure ⟨"boom", "TOKEN_FAILED", none⟩) =
      (.ok ⟨some "tok", some "ck", none, some ⟨"x", "y", 0⟩⟩, 0) :=
  ⟨by decide, by decide,
   C9_inmemory_short_circuit
     ⟨some "tok", some "ck", none, some ⟨"x", "y", 0⟩⟩ 99999999999
     (.failure ⟨"boom", "TOKEN_FAILED", none⟩) (by decide) (by decide)⟩

/-- Claim C5: a cache entry written at timestamp `T` is a hit exactly
while `now < T + 1800000` — still valid at `T + 1799999`, already a miss
at `T + 1800000` — for the expiry predicate both tiers share and for the
durable-tier read. -/
theorem C5_cache_expiry_window (d : CacheEntry) (now : Nat) :
    (cacheEntryValid d now = true ↔ now < d.timestamp + 1800000) ∧
    ((loadCachedToken (some d) now).isSome = true ↔
      now < d.timestamp + 1800000) ∧
    cacheEntryValid d (d.timestamp + 1799999) = true ∧
    cacheEntryValid d (d.timestamp + 1800000) = false ∧
    loadCachedToken (some d) (d.timestamp + 1800000) = none := by
  have hval : cacheEntryValid d now = true ↔ now < d.timestamp + 1800000 := by
    simp [cacheEntryValid, TOKEN_EXPIRY_MS]
  refine ⟨hval, ?_, ?_, ?_, ?_⟩
  · by_cases hv : cacheEntryValid d now = true
    · simp [loadCachedToken, hv, hval.mp hv]
    · have : ¬ now < d.timestamp + 1800000 := fun hlt => hv (hval.mpr hlt)
      simp only [Bool.not_eq_true] at hv
      simp [loadCachedToken, hv, this]
  · simp [cacheEntryValid, TOKEN_EXPIRY_MS]
  · simp [cacheEntryValid, TOKEN_EXPIRY_MS]
  · simp [loadCachedToken, cacheEntryValid, TOKEN_EXPIRY_MS]

/-- Claim C6: `fetchTokenFresh` fails (always with code `TOKEN_FAILED`)
exactly when the status is not 2xx, the `Set-Cookie` header is absent,
or the parsed mapping lacks `XSRF-TOKEN`; on success the token is the
first 339 characters of the raw mapped `XSRF-TOKEN` value with `=`
appended and the cookie is every parsed pair rejoined with `; `. -/
theorem C6_fetchTokenFresh_spec (status : Nat) (sc : Option String) :
    (∀ e, fetchTokenFresh status sc = .error e → e.code = "TOKEN_FAILED") ∧
    ((∃ e, fetchTokenFresh status sc = .error e) ↔
      (isOkStatus status = false ∨ sc = none ∨
       ∃ v, sc = some v ∧
         lookupCookie (parseCookies v) "XSRF-TOKEN" = none)) ∧
    (∀ v x, sc = some v → isOkStatus status = true →
      lookupCookie (parseCookies v) "XSRF-TOKEN" = some x →
      fetchTokenFresh status sc =
        .ok ⟨jsTake 339 x ++ "=", joinCookies (parseCookies v)⟩) := by
  refine ⟨?_, ?_, ?_⟩
  · intro e he
    unfold fetchTokenFresh at he
    rcases hok : isOkStatus status with _ | _
    · simp [hok] at he
      simp [← he]
    · simp only [hok, Bool.not_true, Bool.false_eq_true, if_false] at he
      rcases sc with _ | v
      · simp at he
        simp [← he]
      · simp only at he
        rcases hx : lookupCookie (parseCookies v) "XSRF-TOKEN" with _ | x
        · simp [hx] at he
          simp [← he]
        · simp [hx] at he
  · constructor
    · rintro ⟨e, he⟩
      unfold fetchTokenFresh at he
      rcases hok : isOkStatus status with _ | _
      · exact .inl rfl
      · simp only [hok, Bool.not_true, Bool.false_eq_true, if_false] at he
        rcases sc with _ | v
        · exact .inr (.inl rfl)
        · simp only at he
          rcases hx : lookupCookie (parseCookies v) "XSRF-TOKEN" with _ | x
          · exact .inr (.inr ⟨v, rfl, hx⟩)
          · simp [hx] at he
    · rintro (hok | rfl | ⟨v, rfl, hx⟩)
      · exact ⟨⟨"Token fetch failed", "TOKEN_FAILED", some status⟩,
          by simp [fetchTokenFresh, hok]⟩
      · rcases hok : isOkStatus status with _ | _
        · exact ⟨⟨"Token fetch failed", "TOKEN_FAILED", some status⟩,
            by simp [fetchTokenFresh, hok]⟩
        · exact ⟨⟨"No set-cookie in token response", "TOKEN_FAILED", none⟩,
            by simp [fetchTokenFresh, hok]⟩
      · rcases hok : isOkStatus status with _ | _
        · exact ⟨⟨"Token fetch failed", "TOKEN_FAILED", some status⟩,
            by simp [fetchTokenFresh, hok]⟩
        · exact ⟨⟨"No XSRF-TOKEN in response", "TOKEN_FAILED", none⟩,
            by simp [fetchTokenFresh, hok, hx]⟩
  · rintro v x rfl hok hx
    simp [fetchTokenFresh, hok, hx]

/-- Witness for C6 on a concrete acquisition response. -/
theorem C6_witness :
    isOkStatus 200 = true ∧
    lookupCookie (parseCookies "XSRF-TOKEN=abc; path=/, sess=1")
      "XSRF-TOKEN" = some "abc" ∧
    fetchTokenFresh 200 (some "XSRF-TOKEN=abc; path=/, sess=1") =
      .ok ⟨jsTake 339 "abc" ++ "=",
        joinCookies (parseCookies "XSRF-TOKEN=abc; path=/, sess=1")⟩ :=
  ⟨by decide, by decide,
   (C6_fetchTokenFresh_spec 200 (some "XSRF-TOKEN=abc; path=/, sess=1")).2.2
     "XSRF-TOKEN=abc; path=/, sess=1" "abc" rfl (by decide) (by decide)⟩

/-! ## Request queue (`RequestQueue`, src/index.js lines 34-64) -/

/-- Observable state of one `RequestQueue` in its event loop: the wall
clock, the FIFO of submitted-but-unstarted task ids (`this.queue`), the
tasks between `fn()` start and settlement (`this.running` is the length
of `inflight`), the `setTimeout` wake-ups scheduled by the
post-settlement pacing delay, and logs of every start and settlement
instant. -/
structure QConfig where
  now : Nat
  queue : List Nat
  inflight : List Nat
  pendingDispatch : List Nat
  started : List (Nat × Nat)
  settledLog : List (Nat × Nat)
deriving Repr, DecidableEq

/-- The synchronous core of `process()` (lines 50-52): return unless a
concurrency slot is free and the queue is non-empty; otherwise take the
head task, increment `running` and start it now. -/
def dispatch (maxConcurrent : Nat) (c : QConfig) : QConfig :=
  if c.inflight.length < maxConcurrent then
    match c.queue with
    | [] => c
    | id :: rest =>
      { c with
        queue := rest,
        inflight := id :: c.inflight,
        started := (id, c.now) :: c.started }
  else c

/-- Events of the queue's event loop.  `add` is `add(fn)` (push then a
synchronous `process()` call, lines 42-47); `settle` is the awaited
`fn()` settling (`running--` and, with a positive pacing delay, a timer
scheduling `process()` `delayMs` later — lines 58-61); `wake` is such a
timer firing once due; `tick` advances the clock. -/
inductive QEvent where
  | add (id : Nat)
  | settle (id : Nat)
  | wake (t : Nat)
  | tick (d : Nat)
deriving Repr, DecidableEq

def qstep (maxConcurrent delayMs : Nat) (c : QConfig) :
    QEvent → Option QConfig
  | .add id =>
    some (dispatch maxConcurrent { c with queue := c.queue ++ [id] })
  | .settle id =>
    if id ∈ c.inflight then
      some (if 0 < delayMs then
        { c with
          inflight := c.inflight.erase id,
          settledLog := (id, c.now) :: c.settledLog,
          pendingDispatch := (c.now + delayMs) :: c.pendingDispatch }
      else dispatch maxConcurrent
        { c with
          inflight := c.inflight.erase id,
          settledLog := (id, c.now) :: c.settledLog })
    else none
  | .wake t =>
    if t ∈ c.pendingDispatch ∧ t ≤ c.now then
      some (dispatch maxConcurrent
        { c with pendingDispatch := c.pendingDispatch.erase t })
    else none
  | .tick d => some { c with now := c.now + d }

def qrun (maxConcurrent delayMs : Nat) :
    QConfig → List QEvent → Option QConfig
  | c, [] => some c
  | c, e :: es =>
    match qstep maxConcurrent delayMs c e with
    | some c' => qrun maxConcurrent delayMs c' es
    | none => none

/-- A fresh queue at time 0. -/
def qinit : QConfig := ⟨0, [], [], [], [], []⟩

/-- The pacing discipline claim C7 asserts: no task ever starts less
than `delayMs` after a settlement that precedes it. -/
def pacingRespected (delayMs : Nat) (c : QConfig) : Prop :=
  ∀ p ∈ c.started, ∀ q ∈ c.settledLog, q.2 ≤ p.2 → q.2 + delayMs ≤ p.2

/-- Queue invariant: the concurrency cap holds and every scheduled
wake-up lies exactly `delayMs` after a recorded settlement. -/
def QInv (maxConcurrent delayMs : Nat) (c : QConfig) : Prop :=
  c.inflight.length ≤ maxConcurrent ∧
  ∀ t ∈ c.pendingDispatch, ∃ q ∈ c.settledLog, t = q.2 + delayMs

theorem dispatch_inflight_le (maxConcurrent : Nat) (c : QConfig)
    (h : c.inflight.length ≤ maxConcurrent) :
    (dispatch maxConcurrent c).inflight.length ≤ maxConcurrent := by
  unfold dispatch
  split
  · rcases c.queue with _ | ⟨id, rest⟩ <;> simp_all
    omega
  · exact h

theorem dispatch_pending_settled (maxConcurrent : Nat) (c : QConfig) :
    (dispatch maxConcurrent c).pendingDispatch = c.pendingDispatch ∧
    (dispatch maxConcurrent c).settledLog = c.settledLog := by
  unfold dispatch
  split
  · rcases c.queue with _ | ⟨id, rest⟩ <;> simp
  · simp

theorem qstep_preserves_inv (maxConcurrent delayMs : Nat) (c c' : QConfig)
    (e : QEvent) (hstep : qstep maxConcurrent delayMs c e = some c')
    (hinv : QInv maxConcurrent delayMs c) :
    QInv maxConcurrent delayMs c' := by
  obtain ⟨hlen, hpend⟩ := hinv
  cases e with
  | add id =>
    simp only [qstep, Option.some.injEq] at hstep
    subst hstep
    refine ⟨dispatch_inflight_le _ _ (by simpa using hlen), ?_⟩
    have hps := dispatch_pending_settled maxConcurrent
      { c with queue := c.queue ++ [id] }
    rw [hps.1, hps.2]
    simpa using hpend
  | settle id =>
    simp only [qstep] at hstep
    split at hstep
    · simp only [Option.some.injEq] at hstep
      subst hstep
      split
      · refine ⟨?_, ?_⟩
        · simpa using le_trans (List.length_erase_le _ _) hlen
        · intro t ht
          simp only at ht
          rcases List.mem_cons.mp ht with rfl | ht'
          · exact ⟨(id, c.now), by simp⟩
          · obtain ⟨q, hq, rfl⟩ := hpend t ht'
            exact ⟨q, by simp [hq]⟩
      · set c0 : QConfig :=
          { c with
            inflight := c.inflight.erase id,
            settledLog := (id, c.now) :: c.settledLog } with hc0
        refine ⟨dispatch_inflight_le _ _ ?_, ?_⟩
        · simpa [hc0] using le_trans (List.length_erase_le _ _) hlen
        · have hps := dispatch_pending_settled maxConcurrent c0
          rw [hps.1, hps.2]
          intro t ht
          obtain ⟨q, hq, rfl⟩ := hpend t (by simpa [hc0] using ht)
          exact ⟨q, by simp [hc0, hq]⟩
    · exact absurd hstep (by simp)
  | wake t =>
    simp only [qstep] at hstep
    split at hstep
    · simp only [Option.some.injEq] at hstep
      subst hstep
      refine ⟨dispatch_inflight_le _ _ (by simpa using hlen), ?_⟩
      have hps := dispatch_pending_settled maxConcurrent
        { c with pendingDispatch := c.pendingDispatch.erase t }
      rw [hps.1, hps.2]
      intro u hu
      exact hpend u (List.mem_of_mem_erase (by simpa using hu))
    · exact absurd hstep (by simp)
  | tick d =>
    simp only [qstep, Option.some.injEq] at hstep
    subst hstep
    exact ⟨by simpa using hlen, by simpa using hpend⟩

theorem qrun_preserves_inv (maxConcurrent delayMs : Nat)
    (events : List QEvent) (c final : QConfig)
    (hrun : qrun maxConcurrent delayMs c events = some final)
    (hinv : QInv maxConcurrent delayMs c) :
    QInv maxConcurrent delayMs final := by
  induction events generalizing c with
  | nil =>
    simp only [qrun, Option.some.injEq] at hrun
    subst hrun
    exact hinv
  | cons e es ih =>
    simp only [qrun] at hrun
    rcases hstep : qstep maxConcurrent delayMs c e with _ | c'
    · rw [hstep] at hrun
      simp at hrun
    · rw [hstep] at hrun
      exact ih c' hrun (qstep_preserves_inv _ _ _ _ _ hstep hinv)

/-- Claim C7 is false in its pacing half: with cap 2 and pacing 100ms,
task 1 starts at t=0 and settles at t=5; at t=50 — inside the pacing
window — `add` submits task 2 and its synchronous `process()` call
starts it immediately (a slot is free), only 45ms after the previous
settlement. -/
theorem C7_counterexample :
    qrun 2 100 qinit [.add 1, .tick 5, .settle 1, .tick 45, .add 2] =
      some ⟨50, [], [2], [105], [(2, 50), (1, 0)], [(1, 5)]⟩ ∧
    ¬ pacingRespected 100 ⟨50, [], [2], [105], [(2, 50), (1, 0)], [(1, 5)]⟩ := by
  constructor
  · decide
  · intro hp
    have := hp (2, 50) (by simp) (1, 5) (by simp) (by omega)
    omega

/-- Claim C7 (amended): along every event sequence the queue runs at
most `maxConcurrent` tasks simultaneously; the dispatcher's own
post-settlement wake-ups are each scheduled exactly `delayMs` after a
recorded settlement (and fire only once due), but a start triggered by
a concurrent `add` may occur before that pacing delay has elapsed. -/
theorem C7_amended (maxConcurrent delayMs : Nat) (events : List QEvent)
    (final : QConfig)
    (hrun : qrun maxConcurrent delayMs qinit events = some final) :
    final.inflight.length ≤ maxConcurrent ∧
    ∀ t ∈ final.pendingDispatch, ∃ q ∈ final.settledLog,
      t = q.2 + delayMs := by
  have := qrun_preserves_inv maxConcurrent delayMs events qinit final hrun
    ⟨by simp [qinit], by simp [qinit]⟩
  exact this

/-- Witness for C7 (amended) on the concrete five-event trace. -/
theorem C7_witness :
    qrun 2 100 qinit [.add 1, .tick 5, .settle 1, .tick 45, .add 2] =
      some ⟨50, [], [2], [105], [(2, 50), (1, 0)], [(1, 5)]⟩ ∧
    ((⟨50, [], [2], [105], [(2, 50), (1, 0)], [(1, 5)]⟩ :
        QConfig).inflight.length ≤ 2 ∧
     ∀ t ∈ (⟨50, [], [2], [105], [(2, 50), (1, 0)], [(1, 5)]⟩ :
        QConfig).pendingDispatch,
       ∃ q ∈ (⟨50, [], [2], [105], [(2, 50), (1, 0)], [(1, 5)]⟩ :
        QConfig).settledLog, t = q.2 + 100) :=
  ⟨by decide,
   C7_amended 2 100 [.add 1, .tick 5, .settle 1, .tick 45, .add 2]
     ⟨50, [], [2], [105], [(2, 50), (1, 0)], [(1, 5)]⟩ (by decide)⟩

/-! ## The poller (`waitForMessage`, src/index.js lines 332-350) -/

/-- A message as `listMessages` maps it (lines 293-297): `from`,
`messageID` and an optional `subject` (`from` is a Lean keyword, so the
field is named `fromAddr`). -/
structure Message where
  fromAddr : String
  messageID : String
  subject : Option String
deriving Repr, DecidableEq

/-- The value `waitForMessage` resolves with (line 343): only `from` and
`messageID` — no `subject` field exists in this shape. -/
structure FoundMessage where
  fromAddr : String
  messageID : String
deriving Repr, DecidableEq

/-- The match test of line 342: `!expectedFrom || msg.from ===
expectedFrom`; `expectedFrom` is `null` (`none`) when no filter was
supplied (a falsy option collapses to `null` at line 333). -/
def msgMatches (expectedFrom : Option String) (m : Message) : Bool :=
  match expectedFrom with
  | none => true
  | some e => m.fromAddr == e

/-- The polling loop of lines 339-349, by remaining attempts.  `lists k`
is what the k-th `listMessages()` call returns; `nowAt k` is `Date.now()`
at attempt k's deadline check (line 346).  Returns the resolved value
and how many `listMessages` calls were made. -/
def waitLoop (expectedFrom : Option String) (lists : Nat → List Message)
    (nowAt : Nat → Nat) (deadline : Nat) :
    Nat → Nat → Option FoundMessage × Nat
  | 0, _ => (none, 0)
  | remaining + 1, k =>
    match (lists k).find? (msgMatches expectedFrom) with
    | some m => (some ⟨m.fromAddr, m.messageID⟩, 1)
    | none =>
      if deadline ≤ nowAt k then (none, 1)
      else
        let rest := waitLoop expectedFrom lists nowAt deadline remaining (k + 1)
        (rest.1, rest.2 + 1)

/-- The `maxAttempts` default of line 336:
`Math.max(1, Math.floor(timeoutMs / pollInterval))`. -/
def defaultMaxAttempts (timeoutMs pollInterval : Nat) : Nat :=
  max 1 (timeoutMs / pollInterval)

/-- `waitForMessage` (lines 332-350): `maxAttempts` falls back to the
clamped quotient; the deadline is `start + timeoutMs`. -/
def waitForMessage (expectedFrom : Option String)
    (lists : Nat → List Message) (nowAt : Nat → Nat)
    (start timeoutMs pollInterval : Nat) (maxAttempts : Option Nat) :
    Option FoundMessage × Nat :=
  waitLoop expectedFrom lists nowAt (start + timeoutMs)
    (maxAttempts.getD (defaultMaxAttempts timeoutMs pollInterval)) 0

theorem waitLoop_calls_le (expectedFrom : Option String)
    (lists : Nat → List Message) (nowAt : Nat → Nat) (deadline : Nat)
    (remaining k : Nat) :
    (waitLoop expectedFrom lists nowAt deadline remaining k).2 ≤ remaining := by
  induction remaining generalizing k with
  | zero => simp [waitLoop]
  | succ n ih =>
    unfold waitLoop
    rcases (lists k).find? (msgMatches expectedFrom) with _ | m
    · simp only
      split
      · omega
      · have := ih (k + 1)
        omega
    · simp

theorem waitLoop_calls_pos (expectedFrom : Option String)
    (lists : Nat → List Message) (nowAt : Nat → Nat) (deadline : Nat)
    (remaining k : Nat) (h : 0 < remaining) :
    0 < (waitLoop expectedFrom lists nowAt deadline remaining k).2 := by
  rcases remaining with _ | n
  · omega
  · unfold waitLoop
    rcases (lists k).find? (msgMatches expectedFrom) with _ | m
    · simp only
      split
      · omega
      · simp
    · simp

/-- Claim C8: when the caller supplies no `maxAttempts`,
`waitForMessage` performs at most `max 1 (timeoutMs / pollInterval)`
polling attempts (`listMessages` calls), and whenever the quotient
floors to zero the clamp yields exactly one attempt rather than a
zero-attempt no-op. -/
theorem C8_attempt_clamp (expectedFrom : Option String)
    (lists : Nat → List Message) (nowAt : Nat → Nat)
    (start timeoutMs pollInterval : Nat) (_hp : 0 < pollInterval) :
    (waitForMessage expectedFrom lists nowAt start timeoutMs pollInterval
        none).2 ≤ max 1 (timeoutMs / pollInterval) ∧
    (timeoutMs / pollInterval = 0 →
      (waitForMessage expectedFrom lists nowAt start timeoutMs pollInterval
        none).2 = 1) := by
  constructor
  · have := waitLoop_calls_le expectedFrom lists nowAt (start + timeoutMs)
      (defaultMaxAttempts timeoutMs pollInterval) 0
    simpa [waitForMessage, defaultMaxAttempts] using this
  · intro h0
    have hd : defaultMaxAttempts timeoutMs pollInterval = 1 := by
      simp [defaultMaxAttempts, h0]
    have hle := waitLoop_calls_le expectedFrom lists nowAt
      (start + timeoutMs) 1 0
    have hpos := waitLoop_calls_pos expectedFrom lists nowAt
      (start + timeoutMs) 1 0 (by omega)
    simp only [waitForMessage, Option.getD_none, hd]
    omega

/-- Witness for C8: one-second timeout, ten-second poll interval — the
quotient floors to 0 yet exactly one `listMessages` call happens. -/
theorem C8_witness :
    0 < 10000 ∧
    (waitForMessage (some "a@b.com") (fun _ => []) (fun _ => 0)
        0 1000 10000 none).2 ≤ max 1 (1000 / 10000) ∧
    ((1000 : Nat) / 10000 = 0 →
      (waitForMessage (some "a@b.com") (fun _ => []) (fun _ => 0)
        0 1000 10000 none).2 = 1) :=
  ⟨by decide,
   C8_attempt_clamp (some "a@b.com") (fun _ => []) (fun _ => 0) 0 1000 10000
     (by decide)⟩

/-- The subject-erasing projection of a listed message. -/
def subjProj (m : Message) : String × String := (m.fromAddr, m.messageID)

theorem msgMatches_congr_proj (ef : Option String) (m m' : Message)
    (h : subjProj m = subjProj m') : msgMatches ef m = msgMatches ef m' := by
  rcases ef with _ | e
  · simp [msgMatches]
  · simp only [subjProj, Prod.mk.injEq] at h
    simp [msgMatches, h.1]

theorem find_congr_proj (ef : Option String) (l l' : List Message)
    (h : l.map subjProj = l'.map subjProj) :
    Option.map subjProj (l.find? (msgMatches ef)) =
      Option.map subjProj (l'.find? (msgMatches ef)) := by
  induction l generalizing l' with
  | nil =>
    rcases l' with _ | ⟨m', t'⟩
    · rfl
    · simp at h
  | cons m t ih =>
    rcases l' with _ | ⟨m', t'⟩
    · simp at h
    · simp only [List.map_cons, List.cons.injEq] at h
      obtain ⟨hm, ht⟩ := h
      rw [List.find?_cons, List.find?_cons,
        msgMatches_congr_proj ef m m' hm]
      rcases hmt : msgMatches ef m' with _ | _
      · simp only [hmt]
        exact ih t' ht
      · simp [hmt, hm]

theorem waitLoop_congr_proj (ef : Option String)
    (lists lists' : Nat → List Message) (nowAt : Nat → Nat) (d : Nat)
    (h : ∀ k, (lists k).map subjProj = (lists' k).map subjProj)
    (remaining k : Nat) :
    waitLoop ef lists nowAt d remaining k =
      waitLoop ef lists' nowAt d remaining k := by
  induction remaining generalizing k with
  | zero => rfl
  | succ n ih =>
    unfold waitLoop
    have hf := find_congr_proj ef (lists k) (lists' k) (h k)
    rcases h1 : (lists k).find? (msgMatches ef) with _ | m <;>
      rcases h2 : (lists' k).find? (msgMatches ef) with _ | m'
    · simp only
      split
      · rfl
      · simp [ih]
    · rw [h1, h2] at hf
      simp [Option.map] at hf
    · rw [h1, h2] at hf
      simp [Option.map] at hf
    · rw [h1, h2] at hf
      simp only [Option.map, Option.some.injEq, subjProj,
        Prod.mk.injEq] at hf
      simp [hf.1, hf.2]

theorem waitLoop_found_shape (ef : Option String)
    (lists : Nat → List Message) (nowAt : Nat → Nat) (d : Nat)
    (remaining k : Nat) (r : FoundMessage)
    (h : (waitLoop ef lists nowAt d remaining k).1 = some r) :
    ∃ j m, (lists j).find? (msgMatches ef) = some m ∧
      r = ⟨m.fromAddr, m.messageID⟩ := by
  induction remaining generalizing k with
  | zero => simp [waitLoop] at h
  | succ n ih =>
    unfold waitLoop at h
    rcases hf : (lists k).find? (msgMatches ef) with _ | m
    · rw [hf] at h
      simp only at h
      split at h
      · simp at h
      · exact ih (k + 1) h
    · rw [hf] at h
      simp only [Option.some.injEq] at h
      exact ⟨k, m, hf, h.symm⟩

/-- Claim C10: every value `waitForMessage` resolves with is exactly the
`from`/`messageID` projection of the first matching message of some
attempt (the first message at all when no `expectedFrom` filter is set),
and the listed `subject` never reaches the result: the resolved shape
has no subject field and the whole outcome is invariant under any change
of subjects. -/
theorem C10_result_drops_subject (ef : Option String)
    (lists lists' : Nat → List Message) (nowAt : Nat → Nat)
    (start t p : Nat) (ma : Option Nat) :
    (∀ r, (waitForMessage ef lists nowAt start t p ma).1 = some r →
      ∃ j m, (lists j).find? (msgMatches ef) = some m ∧
        r = ⟨m.fromAddr, m.messageID⟩) ∧
    ((∀ k, (lists k).map subjProj = (lists' k).map subjProj) →
      waitForMessage ef lists nowAt start t p ma =
        waitForMessage ef lists' nowAt start t p ma) := by
  constructor
  · intro r h
    exact waitLoop_found_shape ef lists nowAt (start + t) _ 0 r h
  · intro h
    unfold waitForMessage
    exact waitLoop_congr_proj ef lists lists' nowAt (start + t) h _ 0

/-- Witness for C10: a matching message with a subject resolves to just
its sender and id, and rewriting subjects changes nothing. -/
theorem C10_witness :
    ((waitForMessage (some "a@b.com")
        (fun _ => [⟨"x", "m0", some "S0"⟩, ⟨"a@b.com", "m1", some "S1"⟩])
        (fun _ => 0) 0 1000 100 none).1 = some ⟨"a@b.com", "m1"⟩ →
      ∃ j m,
        ((fun (_ : Nat) =>
            [⟨"x", "m0", some "S0"⟩, ⟨"a@b.com", "m1", some "S1"⟩] :
          Nat → List Message) j).find? (msgMatches (some "a@b.com")) =
            some m ∧
        (⟨"a@b.com", "m1"⟩ : FoundMessage) = ⟨m.fromAddr, m.messageID⟩) ∧
    ((∀ k, (((fun (_ : Nat) =>
          [⟨"x", "m0", some "S0"⟩, ⟨"a@b.com", "m1", some "S1"⟩] :
        Nat → List Message)) k).map subjProj =
        (((fun (_ : Nat) =>
          [⟨"x", "m0", none⟩, ⟨"a@b.com", "m1", some "OTHER"⟩] :
        Nat → List Message)) k).map subjProj) →
      waitForMessage (some "a@b.com")
        (fun _ => [⟨"x", "m0", some "S0"⟩, ⟨"a@b.com", "m1", some "S1"⟩])
        (fun _ => 0) 0 1000 100 none =
      waitForMessage (some "a@b.com")
        (fun _ => [⟨"x", "m0", none⟩, ⟨"a@b.com", "m1", some "OTHER"⟩])
        (fun _ => 0) 0 1000 100 none) :=
  (C10_result_drops_subject (some "a@b.com")
    (fun _ => [⟨"x", "m0", some "S0"⟩, ⟨"a@b.com", "m1", some "S1"⟩])
    (fun _ => [⟨"x", "m0", none⟩, ⟨"a@b.com", "m1", some "OTHER"⟩])
    (fun _ => 0) 0 1000 100 none).imp
    (fun h1 => h1 ⟨"a@b.com", "m1"⟩) (fun h2 => h2)

/-! ## Single-flight credential acquisition
(`ensureCredentials` under concurrency, src/index.js lines 168-202)

JavaScript's event loop runs the synchronous head of each call (up to
the first `await`) atomically; an acquisition settles and each awaiting
continuation resumes in later turns.  A configuration tracks the closure
state, `tokenFetchPromise` (`inflight` holds the id of the pending
acquisition), one slot per `fetchTokenFresh` call ever started (`none`
until the network settles it) and the phase of every concurrent call. -/

/-- Phase of one concurrent `ensureCredentials` call: not yet run, past
its synchronous head awaiting fetch `fid` (`isFetcher` marks the call
that started it and owns the `finally` that clears the promise), done
via an in-memory/cache path, or done having observed a fetch result. -/
inductive TPhase where
  | ready
  | waiting (fid : Nat) (isFetcher : Bool)
  | doneLocal
  | doneFetched (r : FetchResult)
deriving Repr, DecidableEq

def TPhase.isDone : TPhase → Bool
  | .doneLocal => true
  | .doneFetched _ => true
  | _ => false

structure SFConfig where
  st : CredState
  inflight : Option Nat
  fetches : List (Option FetchResult)
  tasks : List TPhase
deriving Repr, DecidableEq

/-- Scheduler events: a call's synchronous head runs; the network
settles a pending acquisition; an awaiting call's continuation runs. -/
inductive SFEvent where
  | runHead (i : Nat)
  | settle (fid : Nat) (r : FetchResult)
  | resume (i : Nat)
deriving Repr, DecidableEq

/-- One scheduler step (`none` when the event is not enabled).

`runHead i` is lines 169-191 up to the first `await`: an early return on
each hit tier; on a miss, join the in-flight promise if one exists
(line 183), else call `fetchTokenFresh()` and publish the promise
(line 191).  `resume i` is the continuation after
`await tokenFetchPromise` (lines 184-189 for a joiner, 193-201 for the
fetcher): on success install the credentials into `token`/`cookie`, the
memory cache and the durable cache; on failure the error propagates; the
fetcher's `finally` clears `tokenFetchPromise` either way. -/
def sfStep (now : Nat) (cfg : SFConfig) : SFEvent → Option SFConfig
  | .runHead i =>
    match cfg.tasks[i]? with
    | some .ready =>
      match ensureSyncHead cfg.st now with
      | .haveCreds => some { cfg with tasks := cfg.tasks.set i .doneLocal }
      | .useMem m =>
        some { cfg with
          st := { cfg.st with
                  token := some m.token, cookie := some m.cookie },
          tasks := cfg.tasks.set i .doneLocal }
      | .useFile c =>
        some { cfg with
          st := { cfg.st with
                  token := some c.token, cookie := some c.cookie,
                  memoryCache := some ⟨c.token, c.cookie, now⟩ },
          tasks := cfg.tasks.set i .doneLocal }
      | .needFetch =>
        match cfg.inflight with
        | some fid =>
          some { cfg with tasks := cfg.tasks.set i (.waiting fid false) }
        | none =>
          some { cfg with
            inflight := some cfg.fetches.length,
            fetches := cfg.fetches ++ [none],
            tasks := cfg.tasks.set i (.waiting cfg.fetches.length true) }
    | _ => none
  | .settle fid r =>
    match cfg.fetches[fid]? with
    | some none => some { cfg with fetches := cfg.fetches.set fid (some r) }
    | _ => none
  | .resume i =>
    match cfg.tasks[i]? with
    | some (.waiting fid isFetcher) =>
      match cfg.fetches[fid]? with
      | some (some r) =>
        some { cfg with
          st := match r with
                | .success c => installFetched cfg.st c now
                | .failure _ => cfg.st,
          inflight := if isFetcher then none else cfg.inflight,
          tasks := cfg.tasks.set i (.doneFetched r) }
      | _ => none
    | _ => none

def sfRun (now : Nat) : SFConfig → List SFEvent → Option SFConfig
  | cfg, [] => some cfg
  | cfg, e :: es =>
    match sfStep now cfg e with
    | some cfg' => sfRun now cfg' es
    | none => none

/-- `n` concurrent `ensureCredentials` calls against closure state
`st`, none yet run, no acquisition ever started. -/
def sfInit (n : Nat) (st : CredState) : SFConfig :=
  ⟨st, none, [], List.replicate n .ready⟩

theorem sfStep_tasks_length (now : Nat) (cfg cfg' : SFConfig) (e : SFEvent)
    (h : sfStep now cfg e = some cfg') :
    cfg'.tasks.length = cfg.tasks.length := by
  cases e with
  | runHead i =>
    simp only [sfStep] at h
    rcases hti : cfg.tasks[i]? with _ | ph <;> rw [hti] at h
    · simp at h
    · rcases ph <;> try simp at h
      rcases hd : ensureSyncHead cfg.st now with _ | m | c | _ <;> rw [hd] at h
      · simp only [Option.some.injEq] at h
        subst h
        simp
      · simp only [Option.some.injEq] at h
        subst h
        simp
      · simp only [Option.some.injEq] at h
        subst h
        simp
      · rcases hin : cfg.inflight with _ | fid <;> rw [hin] at h <;>
          simp only [Option.some.injEq] at h <;> subst h <;> simp
  | settle fid r =>
    simp only [sfStep] at h
    rcases hf : cfg.fetches[fid]? with _ | slot <;> rw [hf] at h
    · simp at h
    · rcases slot <;> simp at h
      subst h
      simp
  | resume i =>
    simp only [sfStep] at h
    rcases hti : cfg.tasks[i]? with _ | ph <;> rw [hti] at h
    · simp at h
    · rcases ph with _ | ⟨fid, b⟩ | _ | _ <;> try simp at h
      rcases hf : cfg.fetches[fid]? with _ | slot <;> rw [hf] at h
      · simp at h
      · rcases slot <;> simp at h
        subst h
        simp

theorem sfRun_tasks_length (now : Nat) (events : List SFEvent)
    (cfg final : SFConfig) (h : sfRun now cfg events = some final) :
    final.tasks.length = cfg.tasks.length := by
  induction events generalizing cfg with
  | nil =>
    simp only [sfRun, Option.some.injEq] at h
    subst h
    rfl
  | cons e es ih =>
    simp only [sfRun] at h
    rcases hstep : sfStep now cfg e with _ | cfg' <;> rw [hstep] at h
    · simp at h
    · rw [ih cfg' h, sfStep_tasks_length now cfg cfg' e hstep]

/-- Invariant of the head-running phase: while only synchronous heads
(each finding `needFetch`) have executed, the closure state is untouched
and either no acquisition has started (all calls still ready) or exactly
one has — its promise published, its slot pending, exactly one waiting
call marked as the fetcher. -/
def PhaseA (st0 : CredState) (cfg : SFConfig) : Prop :=
  cfg.st = st0 ∧
  ((cfg.inflight = none ∧ cfg.fetches = [] ∧ ∀ ph ∈ cfg.tasks, ph = .ready)
   ∨
   (cfg.inflight = some 0 ∧ cfg.fetches = [none] ∧
    (∃ fi : Nat, cfg.tasks[fi]? = some (.waiting 0 true) ∧
      ∀ j : Nat, j ≠ fi → cfg.tasks[j]? ≠ some (.waiting 0 true)) ∧
    ∀ ph ∈ cfg.tasks,
      ph = .ready ∨ ph = .waiting 0 true ∨ ph = .waiting 0 false))

theorem phaseA_step (st0 : CredState) (now : Nat)
    (hneed : ensureSyncHead st0 now = .needFetch)
    (cfg cfg' : SFConfig) (i : Nat)
    (hstep : sfStep now cfg (.runHead i) = some cfg')
    (hA : PhaseA st0 cfg) : PhaseA st0 cfg' := by
  obtain ⟨hst, hdisj⟩ := hA
  simp only [sfStep] at hstep
  rcases hti : cfg.tasks[i]? with _ | ph <;> rw [hti] at hstep
  · simp at hstep
  · rcases ph <;> try simp at hstep
    rw [hst, hneed] at hstep
    have hilen : i < cfg.tasks.length := (List.getElem?_eq_some.mp hti).1
    rcases hdisj with ⟨hin, hfe, hall⟩ | ⟨hin, hfe, ⟨fi, hfi, huniq⟩, hmem⟩
    · rw [hin, hfe] at hstep
      simp only [List.length_nil, List.nil_append, Option.some.injEq]
        at hstep
      subst hstep
      refine ⟨rfl, Or.inr ⟨rfl, rfl, ⟨i, ?_, ?_⟩, ?_⟩⟩
      · simpa using List.getElem?_set_self hilen
      · intro j hj hwj
        dsimp only at hwj
        rw [List.getElem?_set_ne (Ne.symm hj)] at hwj
        have := hall _ (List.getElem?_mem hwj)
        simp at this
      · intro ph hph
        rcases List.mem_or_eq_of_mem_set hph with hmem | rfl
        · exact Or.inl (hall ph hmem)
        · simp
    · rw [hin] at hstep
      simp only [Option.some.injEq] at hstep
      subst hstep
      have hfne : fi ≠ i := by
        intro hfiei
        rw [hfiei, hti] at hfi
        simp at hfi
      refine ⟨rfl, Or.inr ⟨rfl, hfe, ⟨fi, ?_, ?_⟩, ?_⟩⟩
      · show (cfg.tasks.set i (TPhase.waiting 0 false))[fi]? = _
        rw [List.getElem?_set_ne hfne.symm]
        exact hfi
      · intro j hj
        show (cfg.tasks.set i (TPhase.waiting 0 false))[j]? ≠ _
        by_cases hji : j = i
        · subst hji
          rw [List.getElem?_set_self hilen]
          simp
        · rw [List.getElem?_set_ne (fun hh => hji hh.symm)]
          exact huniq j hj
      · intro ph hph
        rcases List.mem_or_eq_of_mem_set hph with hmem' | rfl
        · exact hmem ph hmem'
        · exact Or.inr (Or.inr rfl)

theorem sfRun_append (now : Nat) (a b : List SFEvent) (cfg : SFConfig) :
    sfRun now cfg (a ++ b) =
      match sfRun now cfg a with
      | some c => sfRun now c b
      | none => none := by
  induction a generalizing cfg with
  | nil => simp [sfRun]
  | cons e es ih =>
    simp only [List.cons_append, sfRun]
    rcases sfStep now cfg e with _ | cfg'
    · rfl
    · exact ih cfg'

theorem phaseA_run (st0 : CredState) (now : Nat)
    (hneed : ensureSyncHead st0 now = .needFetch)
    (heads : List SFEvent)
    (hheads : ∀ e ∈ heads, ∃ i, e = .runHead i)
    (cfg cfg' : SFConfig)
    (hrun : sfRun now cfg heads = some cfg')
    (hA : PhaseA st0 cfg) : PhaseA st0 cfg' := by
  induction heads generalizing cfg with
  | nil =>
    simp only [sfRun, Option.some.injEq] at hrun
    subst hrun
    exact hA
  | cons e es ih =>
    obtain ⟨i, rfl⟩ := hheads e (by simp)
    simp only [sfRun] at hrun
    rcases hstep : sfStep now cfg (.runHead i) with _ | c1 <;>
      rw [hstep] at hrun
    · simp at hrun
    · exact ih (fun e' he' => hheads e' (by simp [he'])) c1 hrun
        (phaseA_step st0 now hneed cfg c1 i hstep hA)

/-- With no acquisition ever started and every call still ready, only a
`runHead` event is enabled. -/
theorem phaseA1_stuck (now : Nat) (cfg : SFConfig) (e : SFEvent)
    (hfe : cfg.fetches = [])
    (hall : ∀ ph ∈ cfg.tasks, ph = TPhase.ready)
    (hne : ∀ i, e ≠ .runHead i) :
    sfStep now cfg e = none := by
  cases e with
  | runHead i => exact absurd rfl (hne i)
  | settle fid r =>
    simp only [sfStep, hfe]
    simp
  | resume i =>
    simp only [sfStep]
    rcases hti : cfg.tasks[i]? with _ | ph
    · simp
    · have := hall _ (List.getElem?_mem hti)
      subst this
      simp

/-- Invariant once the single acquisition exists: one fetch slot, every
waiting call waits on it, nobody finished through a cache tier, every
finished call observed the slot's settled value, and the promise is
published exactly while its fetcher is still waiting. -/
def PhaseB (cfg : SFConfig) : Prop :=
  (∃ slot, cfg.fetches = [slot]) ∧
  (∀ (i fid : Nat) (b : Bool),
    cfg.tasks[i]? = some (.waiting fid b) → fid = 0) ∧
  (∀ ph ∈ cfg.tasks, ph ≠ TPhase.doneLocal) ∧
  (∀ r, TPhase.doneFetched r ∈ cfg.tasks → cfg.fetches = [some r]) ∧
  ((cfg.inflight = some 0 ∧
    ∃ fi : Nat, cfg.tasks[fi]? = some (.waiting 0 true) ∧
      ∀ j : Nat, j ≠ fi → cfg.tasks[j]? ≠ some (.waiting 0 true)) ∨
   (cfg.inflight = none ∧
    ∀ j : Nat, cfg.tasks[j]? ≠ some (.waiting 0 true)))

theorem phaseA_to_phaseB (st0 : CredState) (cfg : SFConfig)
    (hin : cfg.inflight = some 0) (hfe : cfg.fetches = [none])
    (hfetcher : ∃ fi : Nat, cfg.tasks[fi]? = some (.waiting 0 true) ∧
      ∀ j : Nat, j ≠ fi → cfg.tasks[j]? ≠ some (.waiting 0 true))
    (hmem : ∀ ph ∈ cfg.tasks,
      ph = TPhase.ready ∨ ph = TPhase.waiting 0 true ∨
        ph = TPhase.waiting 0 false)
    (_hstA : cfg.st = st0) : PhaseB cfg := by
  refine ⟨⟨none, hfe⟩, ?_, ?_, ?_, Or.inl ⟨hin, hfetcher⟩⟩
  · intro i fid b hti
    rcases hmem _ (List.getElem?_mem hti) with h | h | h
    · exact absurd h (by simp)
    · simp only [TPhase.waiting.injEq] at h
      exact h.1
    · simp only [TPhase.waiting.injEq] at h
      exact h.1
  · intro ph hph
    rcases hmem ph hph with rfl | rfl | rfl <;> simp
  · intro r hr
    rcases hmem _ hr with h | h | h <;> simp at h

theorem phaseB_step (now : Nat) (cfg cfg' : SFConfig) (e : SFEvent)
    (hstep : sfStep now cfg e = some cfg')
    (hne : ∀ i, e ≠ .runHead i)
    (hB : PhaseB cfg) : PhaseB cfg' := by
  obtain ⟨⟨slot, hsl⟩, hwait0, hnoLocal, hdf, hinfl⟩ := hB
  cases e with
  | runHead i => exact absurd rfl (hne i)
  | settle fid r =>
    simp only [sfStep] at hstep
    rcases hf : cfg.fetches[fid]? with _ | s <;> rw [hf] at hstep
    · simp at hstep
    · rcases s with _ | s0
      · simp only [Option.some.injEq] at hstep
        subst hstep
        have hfid0 : fid = 0 ∧ slot = none := by
          rcases fid with _ | fid'
          · rw [hsl] at hf
            simp at hf
            exact ⟨rfl, hf⟩
          · rw [hsl] at hf
            simp at hf
        obtain ⟨rfl, rfl⟩ := hfid0
        refine ⟨⟨some r, ?_⟩, hwait0, hnoLocal, ?_, ?_⟩
        · dsimp only
          rw [hsl]
          rfl
        · intro r' hr'
          dsimp only at hr'
          have := hdf r' hr'
          rw [hsl] at this
          simp at this
        · exact hinfl
      · simp at hstep
  | resume i =>
    simp only [sfStep] at hstep
    rcases hti : cfg.tasks[i]? with _ | ph <;> rw [hti] at hstep
    · simp at hstep
    · rcases ph with _ | ⟨fid, b⟩ | _ | _ <;> try simp at hstep
      rcases hf : cfg.fetches[fid]? with _ | s <;> rw [hf] at hstep
      · simp at hstep
      · rcases s with _ | r
        · simp at hstep
        · simp only [Option.some.injEq] at hstep
          subst hstep
          have hfid0 : fid = 0 := hwait0 i fid b hti
          subst hfid0
          have hslot : slot = some r := by
            rw [hsl] at hf
            simpa using hf
          have hilen : i < cfg.tasks.length :=
            (List.getElem?_eq_some.mp hti).1
          refine ⟨⟨slot, hsl⟩, ?_, ?_, ?_, ?_⟩
          · intro j fid' b' htj
            dsimp only at htj
            by_cases hji : j = i
            · subst hji
              rw [List.getElem?_set_self hilen] at htj
              simp at htj
            · rw [List.getElem?_set_ne (fun hh => hji hh.symm)] at htj
              exact hwait0 j fid' b' htj
          · intro ph hph
            dsimp only at hph
            rcases List.mem_or_eq_of_mem_set hph with hm | rfl
            · exact hnoLocal ph hm
            · simp
          · intro r' hr'
            dsimp only at hr' ⊢
            rcases List.mem_or_eq_of_mem_set hr' with hm | heq
            · exact hdf r' hm
            · simp only [TPhase.doneFetched.injEq] at heq
              subst heq
              rw [hsl, hslot]
          · rcases hinfl with ⟨hin, fi, hfi, huniq⟩ | ⟨hin, hnof⟩
            · rcases b with _ | _
              · have hfne : fi ≠ i := by
                  intro hh
                  rw [hh, hti] at hfi
                  simp at hfi
                left
                refine ⟨by dsimp only; simpa using hin, fi, ?_, ?_⟩
                · dsimp only
                  rw [List.getElem?_set_ne hfne.symm]
                  exact hfi
                · intro j hj
                  dsimp only
                  by_cases hji : j = i
                  · subst hji
                    rw [List.getElem?_set_self hilen]
                    simp
                  · rw [List.getElem?_set_ne (fun hh => hji hh.symm)]
                    exact huniq j hj
              · have hie : i = fi := by
                  by_contra hne'
                  exact huniq i hne' hti
                right
                refine ⟨by dsimp only; simp, ?_⟩
                intro j
                dsimp only
                by_cases hji : j = i
                · subst hji
                  rw [List.getElem?_set_self hilen]
                  simp
                · rw [List.getElem?_set_ne (fun hh => hji hh.symm)]
                  exact huniq j (hie ▸ hji)
            · rcases b with _ | _
              · right
                refine ⟨by dsimp only; simpa using hin, ?_⟩
                intro j
                dsimp only
                by_cases hji : j = i
                · subst hji
                  rw [List.getElem?_set_self hilen]
                  simp
                · rw [List.getElem?_set_ne (fun hh => hji hh.symm)]
                  exact hnof j
              · exact absurd hti (hnof i)

theorem phaseB_run (now : Nat) (rest : List SFEvent)
    (hrest : ∀ e ∈ rest, ∀ i, e ≠ SFEvent.runHead i)
    (cfg cfg' : SFConfig)
    (hrun : sfRun now cfg rest = some cfg')
    (hB : PhaseB cfg) : PhaseB cfg' := by
  induction rest generalizing cfg with
  | nil =>
    simp only [sfRun, Option.some.injEq] at hrun
    subst hrun
    exact hB
  | cons e es ih =>
    simp only [sfRun] at hrun
    rcases hstep : sfStep now cfg e with _ | c1 <;> rw [hstep] at hrun
    · simp at hrun
    · exact ih (fun e' he' => hrest e' (by simp [he'])) c1 hrun
        (phaseB_step now cfg c1 e hstep (hrest e (by simp)) hB)

theorem isDone_cases (ph : TPhase) (h : ph.isDone = true) :
    ph = TPhase.doneLocal ∨ ∃ r, ph = TPhase.doneFetched r := by
  cases ph <;> simp_all [TPhase.isDone]

/-- Claim C3: when `n ≥ 1` concurrent `ensureCredentials` calls all run
their synchronous heads while credentials are absent/expired (every
head before any settlement), exactly one `fetchTokenFresh` call is ever
made; once the run completes, every caller has observed that single
call's settled result, and `tokenFetchPromise` is cleared.  The final
conjunct shows a failed acquisition does not wedge the store: after a
failed single-flight acquisition, a later call starts (and here
completes) a fresh one. -/
theorem C3_single_flight (st0 : CredState) (now : Nat) (n : Nat)
    (heads rest : List SFEvent) (final : SFConfig)
    (hn : 1 ≤ n)
    (hneed : ensureSyncHead st0 now = .needFetch)
    (hheads : ∀ e ∈ heads, ∃ i, e = SFEvent.runHead i)
    (hrest : ∀ e ∈ rest, ∀ i, e ≠ SFEvent.runHead i)
    (hrun : sfRun now (sfInit n st0) (heads ++ rest) = some final)
    (hdone : ∀ ph ∈ final.tasks, ph.isDone = true) :
    final.fetches.length = 1 ∧
    (∃ r, final.fetches = [some r] ∧
      ∀ ph ∈ final.tasks, ph = TPhase.doneFetched r) ∧
    final.inflight = none ∧
    sfRun 777 (sfInit 2 ⟨none, none, none, none⟩)
        [.runHead 0, .settle 0 (.failure ⟨"boom", "TOKEN_FAILED", none⟩),
         .resume 0, .runHead 1, .settle 1 (.success ⟨"T", "C"⟩),
         .resume 1] =
      some ⟨⟨some "T", some "C", some ⟨"T", "C", 777⟩,
          some ⟨"T", "C", 777⟩⟩, none,
        [some (.failure ⟨"boom", "TOKEN_FAILED", none⟩),
         some (.success ⟨"T", "C"⟩)],
        [.doneFetched (.failure ⟨"boom", "TOKEN_FAILED", none⟩),
         .doneFetched (.success ⟨"T", "C"⟩)]⟩ := by
  rw [sfRun_append] at hrun
  rcases hmid : sfRun now (sfInit n st0) heads with _ | mid <;>
    rw [hmid] at hrun
  · simp at hrun
  · have hA := phaseA_run st0 now hneed heads hheads _ mid hmid
      ⟨rfl, Or.inl ⟨rfl, rfl,
        fun ph hph => List.eq_of_mem_replicate hph⟩⟩
    have hlenfin : final.tasks.length = n := by
      have h1 := sfRun_tasks_length now heads (sfInit n st0) mid hmid
      have h2 := sfRun_tasks_length now rest mid final hrun
      rw [h2, h1]
      simp [sfInit]
    obtain ⟨hstM, hdisj⟩ := hA
    rcases hdisj with ⟨hin, hfe, hall⟩ | ⟨hin, hfe, hfetcher, hmem⟩
    · exfalso
      have hfinal_eq : mid = final := by
        rcases rest with _ | ⟨e, es⟩
        · simpa [sfRun] using hrun
        · simp only [sfRun] at hrun
          rw [phaseA1_stuck now mid e hfe hall (hrest e (by simp))] at hrun
          simp at hrun
      subst hfinal_eq
      have h0len : 0 < mid.tasks.length := by omega
      obtain ⟨ph0, hph0⟩ :=
        List.exists_mem_of_ne_nil _ (List.length_pos.mp h0len)
      have := hdone ph0 hph0
      rw [hall ph0 hph0] at this
      simp [TPhase.isDone] at this
    · have hB := phaseB_run now rest hrest mid final hrun
        (phaseA_to_phaseB st0 mid hin hfe hfetcher hmem hstM)
      obtain ⟨⟨slot, hsl⟩, hwait0, hnoLocal, hdf, hinfl⟩ := hB
      have h0len : 0 < final.tasks.length := by omega
      obtain ⟨ph0, hph0⟩ :=
        List.exists_mem_of_ne_nil _ (List.length_pos.mp h0len)
      rcases isDone_cases ph0 (hdone ph0 hph0) with rfl | ⟨r0, rfl⟩
      · exact absurd rfl (hnoLocal _ hph0)
      · have hfet : final.fetches = [some r0] := hdf r0 hph0
        refine ⟨by rw [hfet]; rfl, ⟨r0, hfet, ?_⟩, ?_, by decide⟩
        · intro ph hph
          rcases isDone_cases ph (hdone ph hph) with rfl | ⟨r', rfl⟩
          · exact absurd rfl (hnoLocal _ hph)
          · have := hdf r' hph
            rw [hfet] at this
            simp only [List.cons.injEq, Option.some.injEq] at this
            rw [this.1]
        · rcases hinfl with ⟨hin', fi, hfi, _⟩ | ⟨hin', _⟩
          · have hwmem : TPhase.waiting 0 true ∈ final.tasks :=
              List.getElem?_mem hfi
            have := hdone _ hwmem
            simp [TPhase.isDone] at this
          · exact hin'

/-- Witness for C3: two concurrent calls, both heads first, one fetch,
both observe its success, promise cleared. -/
theorem C3_witness :
    1 ≤ 2 ∧
    ensureSyncHead ⟨none, none, none, none⟩ 5 = .needFetch ∧
    (∀ e ∈ [SFEvent.runHead 0, SFEvent.runHead 1],
      ∃ i, e = SFEvent.runHead i) ∧
    (∀ e ∈ [SFEvent.settle 0 (.success ⟨"T", "C"⟩), SFEvent.resume 0,
        SFEvent.resume 1], ∀ i, e ≠ SFEvent.runHead i) ∧
    sfRun 5 (sfInit 2 ⟨none, none, none, none⟩)
        ([SFEvent.runHead 0, SFEvent.runHead 1] ++
         [SFEvent.settle 0 (.success ⟨"T", "C"⟩), SFEvent.resume 0,
          SFEvent.resume 1]) =
      some ⟨⟨some "T", some "C", some ⟨"T", "C", 5⟩, some ⟨"T", "C", 5⟩⟩,
        none, [some (.success ⟨"T", "C"⟩)],
        [.doneFetched (.success ⟨"T", "C"⟩),
         .doneFetched (.success ⟨"T", "C"⟩)]⟩ ∧
    (∀ ph ∈ [TPhase.doneFetched (FetchResult.success ⟨"T", "C"⟩),
        TPhase.doneFetched (FetchResult.success ⟨"T", "C"⟩)],
      ph.isDone = true) ∧
    ([some (FetchResult.success (⟨"T", "C"⟩ : Creds))].length = 1 ∧
     (∃ r, [some (FetchResult.success (⟨"T", "C"⟩ : Creds))] = [some r] ∧
       ∀ ph ∈ [TPhase.doneFetched (FetchResult.success ⟨"T", "C"⟩),
           TPhase.doneFetched (FetchResult.success ⟨"T", "C"⟩)],
         ph = TPhase.doneFetched r) ∧
     (none : Option Nat) = none ∧
     sfRun 777 (sfInit 2 ⟨none, none, none, none⟩)
         [.runHead 0, .settle 0 (.failure ⟨"boom", "TOKEN_FAILED", none⟩),
          .resume 0, .runHead 1, .settle 1 (.success ⟨"T", "C"⟩),
          .resume 1] =
       some ⟨⟨some "T", some "C", some ⟨"T", "C", 777⟩,
           some ⟨"T", "C", 777⟩⟩, none,
         [some (.failure ⟨"boom", "TOKEN_FAILED", none⟩),
          some (.success ⟨"T", "C"⟩)],
         [.doneFetched (.failure ⟨"boom", "TOKEN_FAILED", none⟩),
          .doneFetched (.success ⟨"T", "C"⟩)]⟩) := by
  refine ⟨by decide, by decide, ?_, ?_, by decide, by decide, ?_⟩
  · intro e he
    simp only [List.mem_cons, List.not_mem_nil, or_false] at he
    rcases he with rfl | rfl
    · exact ⟨0, rfl⟩
    · exact ⟨1, rfl⟩
  · intro e he i
    simp only [List.mem_cons, List.not_mem_nil, or_false] at he
    rcases he with rfl | rfl | rfl <;> simp
  · exact C3_single_flight ⟨none, none, none, none⟩ 5 2
      [SFEvent.runHead 0, SFEvent.runHead 1]
      [SFEvent.settle 0 (.success ⟨"T", "C"⟩), SFEvent.resume 0,
       SFEvent.resume 1]
      ⟨⟨some "T", some "C", some ⟨"T", "C", 5⟩, some ⟨"T", "C", 5⟩⟩,
        none, [some (.success ⟨"T", "C"⟩)],
        [.doneFetched (.success ⟨"T", "C"⟩),
         .doneFetched (.success ⟨"T", "C"⟩)]⟩
      (by decide) (by decide)
      (by
        intro e he
        simp only [List.mem_cons, List.not_mem_nil, or_false] at he
        rcases he with rfl | rfl
        · exact ⟨0, rfl⟩
        · exact ⟨1, rfl⟩)
      (by
        intro e he i
        simp only [List.mem_cons, List.not_mem_nil, or_false] at he
        rcases he with rfl | rfl | rfl <;> simp)
      (by decide) (by decide)
